import Mathlib

/-!
Shallow embedding of `app/Planet/PlanetHeatConductionSimulator.py`.

The simulator solves a transient heat-conduction problem with a nonlinear
radiative (Robin) boundary condition by Picard iteration inside a
backward-Euler time-marching loop.

Modelling conventions:
* numpy float arrays become vectors `Fin ndof → K` and matrices
  `Matrix (Fin ndof) (Fin ndof) K` over an arbitrary linear ordered field `K`
  (the theorems instantiate `K := ℝ` for analytic facts and `K := ℚ` for
  concrete evaluations);
* `np.cos`, `np.sin`, `np.sqrt` are passed in as function parameters
  `rcos rsin rsqrt : K → K` (instantiated with `Real.cos`, `Real.sin`,
  `Real.sqrt` where the analytic claims need them);
* the external finite-element library data consumed by the class
  (quadrature weights, basis values, face measures, the face→dof map,
  boundary normals, the stiffness and mass matrices) is bundled in a
  `SimData` record; the definitions below reproduce the einsum/scatter
  assembly of the source on top of it;
* the sparse direct solver (`scipy.sparse.linalg.spsolve`) and the
  distributed MUMPS-style context are opaque collaborators: the Picard loop
  is parametrised by a `solve` function, and `solve_step` embeds the
  local/distributed branch of lines 126–134 of the source.
-/

open BigOperators

namespace Planet

/-- Dense vector of per-dof values (a numpy 1-d array of length `ndof`). -/
abbrev Vec (K : Type) (ndof : ℕ) := Fin ndof → K

/-- Dense view of the sparse matrices of the source (shape `ndof × ndof`). -/
abbrev Mat (K : Type) (ndof : ℕ) := Matrix (Fin ndof) (Fin ndof) K

/-- A 3-vector, as used for face normals and the sun direction. -/
structure Vec3 (K : Type) where
  x : K
  y : K
  z : K
deriving DecidableEq

/-- Euclidean dot product on 3-vectors (`np.dot` on length-3 arrays). -/
def dot3 {K : Type} [LinearOrderedField K] (a b : Vec3 K) : K :=
  a.x * b.x + a.y * b.y + a.z * b.z

/-- Lines 44–48 of `init_mu`: rotate the reference sun vector `sd` about the
z axis by angle `-t` and normalize the result
(`n = Z @ sd; n = n / sqrt(dot(n, n))`). -/
def sun_direction {K : Type} [LinearOrderedField K]
    (rcos rsin rsqrt : K → K) (t : K) (sd : Vec3 K) : Vec3 K :=
  let n : Vec3 K :=
    ⟨rcos (-t) * sd.x - rsin (-t) * sd.y,
     rsin (-t) * sd.x + rcos (-t) * sd.y,
     sd.z⟩
  let s := rsqrt (dot3 n n)
  ⟨n.x / s, n.y / s, n.z / s⟩

/-- Lines 50–52 of `init_mu`, for one boundary quadrature point with outward
unit normal `m`: `mu = np.dot(m, n); mu[mu < 0] = 0`. -/
def init_mu {K : Type} [LinearOrderedField K]
    (rcos rsin rsqrt : K → K) (t : K) (sd m : Vec3 K) : K :=
  let mu := dot3 m (sun_direction rcos rsin rsqrt t sd)
  if mu < 0 then 0 else mu

/-- The read-only data the simulator obtains from the mesh / finite-element
library in `__init__` and in `nolinear_robin_boundary`:
`NQ` quadrature points per boundary triangle face, `NF` exterior boundary
faces, `ldof` local basis functions per face, `ndof` global dofs.
`ws`/`phi`/`measure`/`face2dof`/`normal` are the arrays produced by the
quadrature rule, `space.basis`, `boundary_tri_face_area`,
`tri_face_to_dof()[index]` and `boundary_tri_face_unit_normal`; `S` and `M`
are the stiffness and mass matrices built once in `__init__`; `dt` is the
uniform time-step length of the timeline; `sd` and `Phi` come from
`pde.options`; `rsqrt`/`rcos`/`rsin` embed the numpy scalar functions. -/
structure SimData (K : Type) (NQ NF ldof ndof : ℕ) where
  ws : Fin NQ → K
  phi : Fin NQ → Fin NF → Fin ldof → K
  measure : Fin NF → K
  face2dof : Fin NF → Fin ldof → Fin ndof
  normal : Fin NQ → Fin NF → Vec3 K
  sd : Vec3 K
  Phi : K
  S : Mat K ndof
  M : Mat K ndof
  dt : K
  rsqrt : K → K
  rcos : K → K
  rsin : K → K

variable {K : Type} [LinearOrderedField K] {NQ NF ldof ndof : ℕ}

/-- Line 75: `val = np.einsum('qfi, fi->qf', phi, uh[face2dof])` — the trial
finite-element function evaluated at quadrature point `q` of face `f`. -/
def trial_at_quad (d : SimData K NQ NF ldof ndof) (uh : Vec K ndof)
    (q : Fin NQ) (f : Fin NF) : K :=
  ∑ i, d.phi q f i * uh (d.face2dof f i)

/-- Lines 76–78: `val **= 3; kappa = -1.0/Phi; val *= kappa` — the Picard
linearization coefficient: trial value cubed, scaled by `-1/Phi`. -/
def robin_val (d : SimData K NQ NF ldof ndof) (uh : Vec K ndof)
    (q : Fin NQ) (f : Fin NF) : K :=
  trial_at_quad d uh q f ^ 3 * (-1 / d.Phi)

/-- Line 93: `FM = np.einsum('q, qf, qfi, qfj, f->fij', ws, val, phi, phi,
measure)` — the local boundary reaction blocks. -/
def FM (d : SimData K NQ NF ldof ndof) (uh : Vec K ndof)
    (f : Fin NF) (i j : Fin ldof) : K :=
  ∑ q, d.ws q * robin_val d uh q f * d.phi q f i * d.phi q f j * d.measure f

/-- Lines 95–98: the COO scatter
`R = csr_matrix((FM.flat, (I.flat, J.flat)), shape=S.shape)`; duplicate
`(I, J)` pairs are summed, which is the triple sum with the membership
condition below. -/
def reactionMatrix (d : SimData K NQ NF ldof ndof) (uh : Vec K ndof) :
    Mat K ndof :=
  Matrix.of fun a b =>
    ∑ f, ∑ i, ∑ j,
      if d.face2dof f i = a ∧ d.face2dof f j = b then FM d uh f i j else 0

/-- Line 86: `gR = -mu/Phi` at quadrature point `q` of face `f`, where `mu`
is `init_mu` evaluated on the face normal there. -/
def gR_val (d : SimData K NQ NF ldof ndof) (t : K)
    (q : Fin NQ) (f : Fin NF) : K :=
  -init_mu d.rcos d.rsin d.rsqrt t d.sd (d.normal q f) / d.Phi

/-- Line 88: `bb = np.einsum('q, qf, qfi, f->fi', ws, gR, phi, measure)`. -/
def bb (d : SimData K NQ NF ldof ndof) (t : K)
    (f : Fin NF) (i : Fin ldof) : K :=
  ∑ q, d.ws q * gR_val d t q f * d.phi q f i * d.measure f

/-- Lines 90–91: `b = np.zeros(len(uh)); np.add.at(b, face2dof, bb)` — the
scatter-accumulated boundary flux vector. -/
def fluxVector (d : SimData K NQ NF ldof ndof) (t : K) : Vec K ndof :=
  fun a => ∑ f, ∑ i, if d.face2dof f i = a then bb d t f i else 0

/-- `nolinear_robin_boundary` (lines 54–99): returns `(R + S, b)` where `R`
is the reaction matrix assembled from the trial field `uh` and `b` the
illumination flux vector at time `t` (`t1 = timeline.next_time_level()`). -/
def nolinear_robin_boundary (d : SimData K NQ NF ldof ndof) (t : K)
    (uh : Vec K ndof) : Mat K ndof × Vec K ndof :=
  (reactionMatrix d uh + d.S, fluxVector d t)

/-- Line 136: `error = np.max(np.abs(uh[:] - uh1[:]))`.  For a nonempty
vector this is the maximum absolute componentwise difference (the seed `0`
of the fold is dominated by any `|x i - y i| ≥ 0`). -/
def maxAbsDiff {n : ℕ} (x y : Vec K n) : K :=
  (List.ofFn fun i => |x i - y i|).foldl max 0

/-- One record per executed Picard iteration: the trial field the boundary
term was assembled from, the previous iterate the error was measured
against, the assembled system `A`, right-hand side `rhs`, the solver output
`x` and the convergence error. -/
structure IterRec (K : Type) (ndof : ℕ) where
  trialIn : Vec K ndof
  prevIter : Vec K ndof
  A : Mat K ndof
  rhs : Vec K ndof
  x : Vec K ndof
  err : K
deriving DecidableEq

/-- The state of the three buffers when `picard_iteration` returns, plus the
iteration trace and whether the max-iteration break (lines 141–143) fired. -/
structure PicardOut (K : Type) (ndof : ℕ) where
  uh1 : Vec K ndof
  uh : Vec K ndof
  trace : List (IterRec K ndof)
  capped : Bool
deriving DecidableEq

/-- Lines 120–136, one Picard loop body: assemble the boundary term from the
trial field `uh`, then `b *= dt; b += M @ uh0; R *= dt; R += M`, solve, and
measure the error against the previous iterate `uh1`. -/
def picard_body (solve : Mat K ndof → Vec K ndof → Vec K ndof)
    (d : SimData K NQ NF ldof ndof) (t : K)
    (uh0 uh1 uh : Vec K ndof) : IterRec K ndof :=
  let Rb := nolinear_robin_boundary d t uh
  let rhs := d.dt • Rb.2 + d.M.mulVec uh0
  let A := d.dt • Rb.1 + d.M
  let x := solve A rhs
  ⟨uh, uh1, A, rhs, x, maxAbsDiff x uh1⟩

/-- The `while error > e` loop of lines 119–143.  The loop counter is
re-indexed: `rem = npicard - 1 - k` counts the iterations still allowed, so
the break condition `k + 1 >= npicard` becomes `rem = 0`.  After every body
the code sets `uh1[:] = uh` and `uh[:] = x`, i.e. both buffers continue as
the fresh solution `x`. -/
def picard_aux (solve : Mat K ndof → Vec K ndof → Vec K ndof)
    (d : SimData K NQ NF ldof ndof) (t e : K) (uh0 : Vec K ndof) :
    ℕ → Vec K ndof → Vec K ndof → K → PicardOut K ndof
  | rem, uh1, uh, error =>
    if e < error then
      let itr := picard_body solve d t uh0 uh1 uh
      match rem with
      | 0 => ⟨itr.x, itr.x, [itr], true⟩
      | rem' + 1 =>
        let out := picard_aux solve d t e uh0 rem' itr.x itr.x itr.err
        ⟨out.uh1, out.uh, itr :: out.trace, out.capped⟩
    else ⟨uh1, uh, [], false⟩

/-- `picard_iteration` (lines 101–143): `uh1[:] = uh0`, `k = 0`,
`error = 1.0`, then the loop.  `m` is `args.npicard`; the loop body can run
at most `max m 1` times, i.e. `(m - 1) + 1` with truncated subtraction. -/
def picard_iteration (solve : Mat K ndof → Vec K ndof → Vec K ndof)
    (d : SimData K NQ NF ldof ndof) (t e : K) (m : ℕ)
    (uh0 uhIn : Vec K ndof) : PicardOut K ndof :=
  picard_aux solve d t e uh0 (m - 1) uh0 uhIn 1

/-- The optional distributed context of `picard_iteration`: a participant id
and the collective job-6 solve whose result materializes on the root
(spec §6: "after return, the right-hand-side buffer holds the solution on
the coordinator"). -/
structure DistCtx (K : Type) (ndof : ℕ) where
  myid : ℕ
  runJob : Mat K ndof → Vec K ndof → Vec K ndof

/-- Lines 126–134, the solve step of one Picard iteration.  With no context
the local sparse solve is used.  With a context, the Python code binds the
local variable `x` only inside the `if ctx.myid == 0` branch and then
executes `uh[:] = x` unconditionally, so on a participant with
`myid ≠ 0` the read of `x` raises `NameError`; that failure is modelled as
`Option.none`. -/
def solve_step (localSolve : Mat K ndof → Vec K ndof → Vec K ndof)
    (ctx : Option (DistCtx K ndof)) (R : Mat K ndof) (b : Vec K ndof) :
    Option (Vec K ndof) :=
  match ctx with
  | Option.none => Option.some (localSolve R b)
  | Option.some c =>
      if c.myid = 0 then Option.some (c.runJob R b) else Option.none

/-- The three temperature buffers of the simulator: `uh0` is the current
layer, `uh1` the next layer, `uh` the working (trial) field. -/
structure SimState (K : Type) (ndof : ℕ) where
  uh0 : Vec K ndof
  uh1 : Vec K ndof
  uh : Vec K ndof
deriving DecidableEq

/-- Lines 29–34 of `__init__`: `uh0[:] = theta/Tss`, `uh1` is a fresh
zero-initialized finite-element function, `uh[:] = uh0`. -/
def init_state (theta Tss : K) : SimState K ndof :=
  ⟨fun _ => theta / Tss, fun _ => 0, fun _ => theta / Tss⟩

/-- One body of the `while not timeline.stop()` loop of `run` (lines
180–186), for step index `i`: call `picard_iteration` at
`t = timeline.next_time_level() = (i+1)·dt`, then commit
`uh0[:] = uh1`. -/
def step_once (solve : Mat K ndof → Vec K ndof → Vec K ndof)
    (d : SimData K NQ NF ldof ndof) (e : K) (m : ℕ)
    (i : ℕ) (st : SimState K ndof) : SimState K ndof :=
  let r := picard_iteration solve d (((i : K) + 1) * d.dt) e m st.uh0 st.uh
  ⟨r.uh1, r.uh1, r.uh⟩

/-- The buffers at the start of time step `j` of `run` (step `0` starts
from the `__init__` state). -/
def state_at (solve : Mat K ndof → Vec K ndof → Vec K ndof)
    (d : SimData K NQ NF ldof ndof) (e : K) (m : ℕ) (theta Tss : K) :
    ℕ → SimState K ndof
  | 0 => init_state theta Tss
  | j + 1 => step_once solve d e m j (state_at solve d e m theta Tss j)

/-- `update_mesh_data` (lines 145–159): the snapshot field is
`T = uh0 * Tss`, the dimensionless current layer scaled back to a real
temperature. -/
def update_mesh_data (Tss : K) (uh0 : Vec K ndof) : Vec K ndof :=
  fun a => uh0 a * Tss

/-- One item put on the consumer queue by `run`: either a snapshot payload
`{'name': output + str(i).zfill(10) + '.vtu', 'mesh': ...}` holding the
scaled field, or the terminal sentinel `-1` of line 202. -/
inductive QItem (K : Type) (ndof : ℕ) where
  | snapshot (label : ℕ) (T : Vec K ndof)
  | sentinel
deriving DecidableEq

/-- Whether a queue item is a snapshot payload (as opposed to the sentinel). -/
def QItem.isSnapshot {n : ℕ} : QItem K n → Bool
  | QItem.snapshot _ _ => true
  | QItem.sentinel => false

/-- The `while not timeline.stop()` loop of `run` with a queue supplied
(lines 180–193), unrolled over the `steps` remaining time steps starting at
step index `i`: after each step, a snapshot of the freshly committed `uh0`
is emitted when `i % args.step == 0`.  Returns the emitted items in order
and the final buffer state. -/
def run_loop_emits (solve : Mat K ndof → Vec K ndof → Vec K ndof)
    (d : SimData K NQ NF ldof ndof) (e : K) (m stride : ℕ) (Tss : K) :
    ℕ → ℕ → SimState K ndof → List (QItem K ndof) × SimState K ndof
  | 0, _, st => ([], st)
  | steps + 1, i, st =>
    let st' := step_once solve d e m i st
    let ems := if i % stride = 0 then
        [QItem.snapshot i (update_mesh_data Tss st'.uh0)] else []
    let rest := run_loop_emits solve d e m stride Tss steps (i + 1) st'
    (ems ++ rest.1, rest.2)

/-- `run` with a consumer queue (lines 162–202), over a timeline of `NT`
uniform steps starting at index `0`: one snapshot before the loop (labelled
with the initial index `0`), the loop emissions, a final snapshot only when
`NT % args.step != 0`, then the sentinel exactly once. -/
def run (solve : Mat K ndof → Vec K ndof → Vec K ndof)
    (d : SimData K NQ NF ldof ndof) (e : K) (m stride NT : ℕ) (Tss : K)
    (st0 : SimState K ndof) : List (QItem K ndof) :=
  let pre := [QItem.snapshot 0 (update_mesh_data Tss st0.uh0)]
  let lp := run_loop_emits solve d e m stride Tss NT 0 st0
  let post := if NT % stride ≠ 0 then
      [QItem.snapshot NT (update_mesh_data Tss lp.2.uh0)] else []
  pre ++ lp.1 ++ post ++ [QItem.sentinel]

/-! ### Concrete instances used to evaluate the embedding on small inputs -/

/-- A minimal concrete library-data record over `ℚ` with one quadrature
point, one boundary face, one local and one global dof: unit weight, unit
basis, unit measure, normal `(0,0,1)`, sun direction `(1,0,0)`, `Phi = 1`,
`S = 0`, `M = 1`, `dt = 1`, and placeholder scalar functions. -/
def cD : SimData ℚ 1 1 1 1 where
  ws := fun _ => 1
  phi := fun _ _ _ => 1
  measure := fun _ => 1
  face2dof := fun _ _ => 0
  normal := fun _ _ => ⟨0, 0, 1⟩
  sd := ⟨1, 0, 0⟩
  Phi := 1
  S := 0
  M := 1
  dt := 1
  rsqrt := fun s => s
  rcos := fun _ => 1
  rsin := fun _ => 0

/-- A concrete backend whose solution is identically zero. -/
def cSolve0 : Mat ℚ 1 → Vec ℚ 1 → Vec ℚ 1 := fun _ _ _ => 0

/-- A concrete backend returning the poison value 999 on every dof,
standing for the NaN-filled vector scipy's `spsolve` produces on a
singular system. -/
def cSolvePoison : Mat ℚ 1 → Vec ℚ 1 → Vec ℚ 1 := fun _ _ _ => 999

/-- The zero field on one dof. -/
def czero : Vec ℚ 1 := fun _ => 0

/-- The single iteration record produced by `picard_iteration` on the
concrete one-dof instance with a zero trial field: the system matrix is the
identity (`M + dt·(S + 0)` with `S = 0`, `R(0) = 0`, `M = 1`, `dt = 1`),
the right-hand side, solution and error are all zero. -/
def cItr : IterRec ℚ 1 := ⟨czero, czero, 1, czero, czero, 0⟩

/-- A concrete all-zero buffer state. -/
def cSt : SimState ℚ 1 := ⟨czero, czero, czero⟩

/-- A concrete initial buffer state (`theta = Tss = 1`). -/
def cInit : SimState ℚ 1 := init_state 1 1

/-- A concrete non-coordinating distributed context (`myid = 1`) whose
collective job returns the right-hand side unchanged. -/
def cCtx1 : DistCtx ℚ 1 := ⟨1, fun _ b => b⟩

/-- The corresponding coordinator context (`myid = 0`). -/
def cCtx0 : DistCtx ℚ 1 := ⟨0, fun _ b => b⟩

/-! ### Helper lemmas -/

lemma foldl_max_init_le (l : List K) (a : K) : a ≤ l.foldl max a := by
  induction l generalizing a with
  | nil => exact le_refl a
  | cons c l ih =>
      simp only [List.foldl_cons]
      exact le_trans (le_max_left a c) (ih (max a c))

lemma foldl_max_mem_le (l : List K) (a b : K) (hb : b ∈ l) :
    b ≤ l.foldl max a := by
  induction l generalizing a with
  | nil => cases hb
  | cons c l ih =>
      simp only [List.foldl_cons]
      rcases List.mem_cons.mp hb with h | h
      · subst h
        exact le_trans (le_max_right a b) (foldl_max_init_le l (max a b))
      · exact ih (max a c) h

lemma foldl_max_eq_init_or_mem (l : List K) (a : K) :
    l.foldl max a = a ∨ l.foldl max a ∈ l := by
  induction l generalizing a with
  | nil => exact Or.inl rfl
  | cons c l ih =>
      simp only [List.foldl_cons]
      rcases ih (max a c) with h | h
      · rcases max_cases a c with ⟨h1, _⟩ | ⟨h1, _⟩
        · exact Or.inl (by rw [h, h1])
        · exact Or.inr (by rw [h, h1]; exact List.mem_cons_self c l)
      · exact Or.inr (List.mem_cons_of_mem c h)

lemma abs_sub_le_maxAbsDiff {n : ℕ} (x y : Vec K n) (i : Fin n) :
    |x i - y i| ≤ maxAbsDiff x y :=
  foldl_max_mem_le _ 0 _ ((List.mem_ofFn _ _).mpr ⟨i, rfl⟩)

lemma maxAbsDiff_attained {n : ℕ} (x y : Vec K n) :
    maxAbsDiff x y = 0 ∨ ∃ i, maxAbsDiff x y = |x i - y i| := by
  rcases foldl_max_eq_init_or_mem (List.ofFn fun i => |x i - y i|) 0 with h | h
  · exact Or.inl h
  · rcases (List.mem_ofFn _ _).mp h with ⟨i, hi⟩
    exact Or.inr ⟨i, hi.symm⟩

section PicardLemmas

variable (solve : Mat K ndof → Vec K ndof → Vec K ndof)
variable (d : SimData K NQ NF ldof ndof) (t e : K)
variable (uh0 uh1 uh : Vec K ndof)

lemma picard_body_A :
    (picard_body solve d t uh0 uh1 uh).A =
      d.M + d.dt • (d.S + reactionMatrix d uh) := by
  show d.dt • (reactionMatrix d uh + d.S) + d.M = _
  rw [smul_add, smul_add]
  abel

lemma picard_body_rhs :
    (picard_body solve d t uh0 uh1 uh).rhs =
      d.M.mulVec uh0 + d.dt • fluxVector d t := by
  show d.dt • fluxVector d t + d.M.mulVec uh0 = _
  exact add_comm _ _

lemma picard_body_x :
    (picard_body solve d t uh0 uh1 uh).x =
      solve (picard_body solve d t uh0 uh1 uh).A
        (picard_body solve d t uh0 uh1 uh).rhs := rfl

lemma picard_body_err :
    (picard_body solve d t uh0 uh1 uh).err =
      maxAbsDiff (picard_body solve d t uh0 uh1 uh).x uh1 := rfl

lemma picard_aux_of_not_lt (rem : ℕ) (error : K) (h : ¬ e < error) :
    picard_aux solve d t e uh0 rem uh1 uh error = ⟨uh1, uh, [], false⟩ := by
  rw [picard_aux, if_neg h]

lemma picard_aux_zero (error : K) (he : e < error) :
    picard_aux solve d t e uh0 0 uh1 uh error =
      ⟨(picard_body solve d t uh0 uh1 uh).x,
       (picard_body solve d t uh0 uh1 uh).x,
       [picard_body solve d t uh0 uh1 uh], true⟩ := by
  rw [picard_aux, if_pos he]

lemma picard_aux_succ (rem' : ℕ) (error : K) (he : e < error) :
    picard_aux solve d t e uh0 (rem' + 1) uh1 uh error =
      ⟨(picard_aux solve d t e uh0 rem'
          (picard_body solve d t uh0 uh1 uh).x
          (picard_body solve d t uh0 uh1 uh).x
          (picard_body solve d t uh0 uh1 uh).err).uh1,
       (picard_aux solve d t e uh0 rem'
          (picard_body solve d t uh0 uh1 uh).x
          (picard_body solve d t uh0 uh1 uh).x
          (picard_body solve d t uh0 uh1 uh).err).uh,
       picard_body solve d t uh0 uh1 uh ::
         (picard_aux solve d t e uh0 rem'
            (picard_body solve d t uh0 uh1 uh).x
            (picard_body solve d t uh0 uh1 uh).x
            (picard_body solve d t uh0 uh1 uh).err).trace,
       (picard_aux solve d t e uh0 rem'
          (picard_body solve d t uh0 uh1 uh).x
          (picard_body solve d t uh0 uh1 uh).x
          (picard_body solve d t uh0 uh1 uh).err).capped⟩ := by
  rw [picard_aux, if_pos he]

end PicardLemmas

section PicardInvariants

variable (solve : Mat K ndof → Vec K ndof → Vec K ndof)
variable (d : SimData K NQ NF ldof ndof) (t e : K) (uh0 : Vec K ndof)

lemma picard_aux_trace_nil (rem : ℕ) (uh1 uh : Vec K ndof) (error : K)
    (h : (picard_aux solve d t e uh0 rem uh1 uh error).trace = []) :
    ¬ e < error ∧
      picard_aux solve d t e uh0 rem uh1 uh error = ⟨uh1, uh, [], false⟩ := by
  by_cases he : e < error
  · exfalso
    cases rem with
    | zero => rw [picard_aux_zero solve d t e uh0 uh1 uh error he] at h; simp at h
    | succ rem' =>
        rw [picard_aux_succ solve d t e uh0 uh1 uh rem' error he] at h
        simp at h
  · exact ⟨he, picard_aux_of_not_lt solve d t e uh0 uh1 uh rem error he⟩

lemma picard_aux_uh1_eq_uh :
    ∀ (rem : ℕ) (uh1 uh : Vec K ndof) (error : K), uh1 = uh →
      (picard_aux solve d t e uh0 rem uh1 uh error).uh1 =
        (picard_aux solve d t e uh0 rem uh1 uh error).uh := by
  intro rem
  induction rem with
  | zero =>
      intro uh1 uh error h
      by_cases he : e < error
      · rw [picard_aux_zero solve d t e uh0 uh1 uh error he]
      · rw [picard_aux_of_not_lt solve d t e uh0 uh1 uh 0 error he]
        exact h
  | succ rem' ih =>
      intro uh1 uh error h
      by_cases he : e < error
      · rw [picard_aux_succ solve d t e uh0 uh1 uh rem' error he]
        exact ih _ _ _ rfl
      · rw [picard_aux_of_not_lt solve d t e uh0 uh1 uh _ error he]
        exact h

lemma picard_aux_last :
    ∀ (rem : ℕ) (uh1 uh : Vec K ndof) (error : K) (l : IterRec K ndof),
      (picard_aux solve d t e uh0 rem uh1 uh error).trace.getLast? =
        Option.some l →
      (picard_aux solve d t e uh0 rem uh1 uh error).uh1 = l.x ∧
        (picard_aux solve d t e uh0 rem uh1 uh error).uh = l.x := by
  intro rem
  induction rem with
  | zero =>
      intro uh1 uh error l hl
      by_cases he : e < error
      · rw [picard_aux_zero solve d t e uh0 uh1 uh error he] at hl ⊢
        simp only [List.getLast?_singleton, Option.some.injEq] at hl
        rw [← hl]
        exact ⟨rfl, rfl⟩
      · rw [picard_aux_of_not_lt solve d t e uh0 uh1 uh 0 error he] at hl
        simp at hl
  | succ rem' ih =>
      intro uh1 uh error l hl
      by_cases he : e < error
      · rw [picard_aux_succ solve d t e uh0 uh1 uh rem' error he] at hl ⊢
        rcases hT : (picard_aux solve d t e uh0 rem'
            (picard_body solve d t uh0 uh1 uh).x
            (picard_body solve d t uh0 uh1 uh).x
            (picard_body solve d t uh0 uh1 uh).err).trace with _ | ⟨a, as⟩
        · simp only [hT, List.getLast?_singleton, Option.some.injEq] at hl
          rcases picard_aux_trace_nil solve d t e uh0 rem' _ _ _ hT
            with ⟨_, hout⟩
          rw [hout, ← hl]
          exact ⟨rfl, rfl⟩
        · rw [hT, List.getLast?_cons_cons] at hl
          exact ih _ _ _ l (by rw [hT]; exact hl)
      · rw [picard_aux_of_not_lt solve d t e uh0 uh1 uh _ error he] at hl
        simp at hl

lemma picard_aux_trace_shape :
    ∀ (rem : ℕ) (uh1 uh : Vec K ndof) (error : K), uh1 = uh →
      ∀ itr ∈ (picard_aux solve d t e uh0 rem uh1 uh error).trace,
        ∃ v : Vec K ndof, itr = picard_body solve d t uh0 v v := by
  intro rem
  induction rem with
  | zero =>
      intro uh1 uh error h itr hmem
      by_cases he : e < error
      · rw [picard_aux_zero solve d t e uh0 uh1 uh error he] at hmem
        simp only [List.mem_singleton] at hmem
        exact ⟨uh, by rw [hmem, h]⟩
      · rw [picard_aux_of_not_lt solve d t e uh0 uh1 uh 0 error he] at hmem
        simp at hmem
  | succ rem' ih =>
      intro uh1 uh error h itr hmem
      by_cases he : e < error
      · rw [picard_aux_succ solve d t e uh0 uh1 uh rem' error he] at hmem
        rcases List.mem_cons.mp hmem with hh | hh
        · exact ⟨uh, by rw [hh, h]⟩
        · exact ih _ _ _ rfl itr hh
      · rw [picard_aux_of_not_lt solve d t e uh0 uh1 uh _ error he] at hmem
        simp at hmem

lemma picard_aux_capped_trace (rem : ℕ) (uh1 uh : Vec K ndof) (error : K)
    (h : (picard_aux solve d t e uh0 rem uh1 uh error).capped = true) :
    (picard_aux solve d t e uh0 rem uh1 uh error).trace ≠ [] := by
  intro hT
  rcases picard_aux_trace_nil solve d t e uh0 rem uh1 uh error hT with ⟨_, hout⟩
  rw [hout] at h
  simp at h

lemma picard_iteration_uh1_eq_uh (m : ℕ) (uhIn : Vec K ndof)
    (h : uhIn = uh0) :
    (picard_iteration solve d t e m uh0 uhIn).uh1 =
      (picard_iteration solve d t e m uh0 uhIn).uh :=
  picard_aux_uh1_eq_uh solve d t e uh0 (m - 1) uh0 uhIn 1 h.symm

lemma state_at_uh_eq_uh0 (e : K) (m : ℕ) (theta Tss : K) :
    ∀ j : ℕ, (state_at solve d e m theta Tss j).uh =
      (state_at solve d e m theta Tss j).uh0 := by
  intro j
  induction j with
  | zero => rfl
  | succ j ih =>
      show (step_once solve d e m j (state_at solve d e m theta Tss j)).uh = _
      unfold step_once
      exact (picard_iteration_uh1_eq_uh solve d _ e _ m _ ih).symm

end PicardInvariants

/-! ### Evaluation lemmas on the concrete instance -/

lemma picard_body_concrete (t : ℚ) :
    picard_body cSolve0 cD t czero czero czero = cItr := by
  unfold picard_body cItr
  simp only [IterRec.mk.injEq]
  refine ⟨trivial, trivial, ?_, ?_, rfl, ?_⟩
  · unfold nolinear_robin_boundary
    ext i j
    fin_cases i
    fin_cases j
    simp [cD, reactionMatrix, FM, robin_val, trial_at_quad, czero,
      Matrix.one_apply, Matrix.add_apply, Matrix.smul_apply]
  · unfold nolinear_robin_boundary
    funext a
    fin_cases a
    simp [cD, fluxVector, bb, gR_val, init_mu, sun_direction, dot3, czero,
      Matrix.mulVec, Matrix.one_apply, Matrix.dotProduct]
  · simp [maxAbsDiff, czero, cSolve0]

lemma picard_trace_concrete (t : ℚ) :
    (picard_iteration cSolve0 cD t 0 1 czero czero).trace = [cItr] := by
  rw [picard_iteration, show (1 : ℕ) - 1 = 0 from rfl,
    picard_aux_zero cSolve0 cD t 0 czero czero czero 1 (by norm_num)]
  simp only [picard_body_concrete t]

lemma state_zero_eq : state_at cSolve0 cD 0 1 0 1 0 = cSt := by
  show init_state (0 : ℚ) 1 = cSt
  unfold init_state cSt czero
  norm_num

/-! ### Claim theorems -/

/-- C3: for every time `t` and every exterior-boundary quadrature point
with unit outward normal `m` (and a unit reference sun vector `sd`, as the
spec's data model requires), the illumination weight computed by `init_mu`
lies in `[0, 1]`, and it is exactly `0` whenever the dot product of the
normal with the unit sun direction is `≤ 0`. -/
theorem init_mu_in_unit_interval (t : ℝ) (sd m : Vec3 ℝ)
    (hsd : dot3 sd sd = 1) (hm : dot3 m m = 1) :
    0 ≤ init_mu Real.cos Real.sin Real.sqrt t sd m ∧
    init_mu Real.cos Real.sin Real.sqrt t sd m ≤ 1 ∧
    (dot3 m (sun_direction Real.cos Real.sin Real.sqrt t sd) ≤ 0 →
      init_mu Real.cos Real.sin Real.sqrt t sd m = 0) := by
  have hpy := Real.sin_sq_add_cos_sq (-t)
  have hnn : dot3 (K := ℝ)
      ⟨Real.cos (-t) * sd.x - Real.sin (-t) * sd.y,
       Real.sin (-t) * sd.x + Real.cos (-t) * sd.y, sd.z⟩
      ⟨Real.cos (-t) * sd.x - Real.sin (-t) * sd.y,
       Real.sin (-t) * sd.x + Real.cos (-t) * sd.y, sd.z⟩ = 1 := by
    simp only [dot3] at hsd ⊢
    linear_combination (sd.x ^ 2 + sd.y ^ 2) * hpy + hsd
  have hdir : sun_direction Real.cos Real.sin Real.sqrt t sd =
      ⟨Real.cos (-t) * sd.x - Real.sin (-t) * sd.y,
       Real.sin (-t) * sd.x + Real.cos (-t) * sd.y, sd.z⟩ := by
    simp only [sun_direction]
    rw [hnn, Real.sqrt_one]
    simp
  have hdd : dot3 m (sun_direction Real.cos Real.sin Real.sqrt t sd) ≤ 1 := by
    rw [hdir]
    have h1 := hnn
    simp only [dot3] at hm h1 ⊢
    nlinarith [sq_nonneg (m.x * (Real.sin (-t) * sd.x + Real.cos (-t) * sd.y) -
        m.y * (Real.cos (-t) * sd.x - Real.sin (-t) * sd.y)),
      sq_nonneg (m.x * sd.z - m.z * (Real.cos (-t) * sd.x - Real.sin (-t) * sd.y)),
      sq_nonneg (m.y * sd.z - m.z * (Real.sin (-t) * sd.x + Real.cos (-t) * sd.y)),
      sq_nonneg (m.x * (Real.cos (-t) * sd.x - Real.sin (-t) * sd.y) +
        m.y * (Real.sin (-t) * sd.x + Real.cos (-t) * sd.y) + m.z * sd.z - 1)]
  refine ⟨?_, ?_, ?_⟩
  · simp only [init_mu]
    split
    · exact le_refl 0
    · next h => exact not_lt.mp h
  · simp only [init_mu]
    split
    · exact zero_le_one
    · exact hdd
  · intro hneg
    simp only [init_mu]
    split
    · rfl
    · next h => exact le_antisymm hneg (not_lt.mp h)

/-- Witness for C3 at `t = 0`, `sd = (1,0,0)`, `m = (0,0,1)`. -/
theorem init_mu_in_unit_interval_witness :
    dot3 (⟨1, 0, 0⟩ : Vec3 ℝ) ⟨1, 0, 0⟩ = 1 ∧
    dot3 (⟨0, 0, 1⟩ : Vec3 ℝ) ⟨0, 0, 1⟩ = 1 ∧
    (0 ≤ init_mu Real.cos Real.sin Real.sqrt 0 ⟨1, 0, 0⟩ ⟨0, 0, 1⟩ ∧
     init_mu Real.cos Real.sin Real.sqrt 0 ⟨1, 0, 0⟩ ⟨0, 0, 1⟩ ≤ 1 ∧
     (dot3 (⟨0, 0, 1⟩ : Vec3 ℝ)
        (sun_direction Real.cos Real.sin Real.sqrt 0 ⟨1, 0, 0⟩) ≤ 0 →
       init_mu Real.cos Real.sin Real.sqrt 0 ⟨1, 0, 0⟩ ⟨0, 0, 1⟩ = 0)) :=
  ⟨by norm_num [dot3], by norm_num [dot3],
   init_mu_in_unit_interval 0 ⟨1, 0, 0⟩ ⟨0, 0, 1⟩
     (by norm_num [dot3]) (by norm_num [dot3])⟩

lemma FM_symm (d : SimData K NQ NF ldof ndof) (uh : Vec K ndof)
    (f : Fin NF) (i j : Fin ldof) : FM d uh f i j = FM d uh f j i :=
  Finset.sum_congr rfl fun _ _ => by ring

/-- C9: the reaction matrix assembled by `nolinear_robin_boundary` from any
trial field (the boundary contribution before the stiffness matrix is
added) is symmetric in value: the accumulated entry at `(a, b)` equals the
accumulated entry at `(b, a)`, because the bilinear form uses the same
basis values in both slots. -/
theorem reactionMatrix_symmetric (d : SimData K NQ NF ldof ndof)
    (uh : Vec K ndof) (a b : Fin ndof) :
    reactionMatrix d uh a b = reactionMatrix d uh b a := by
  unfold reactionMatrix
  simp only [Matrix.of_apply]
  refine Finset.sum_congr rfl fun f _ => ?_
  rw [Finset.sum_comm]
  refine Finset.sum_congr rfl fun x _ => Finset.sum_congr rfl fun y _ => ?_
  rw [FM_symm d uh f y x]
  exact if_congr and_comm rfl rfl

/-- C1: at every time step `j` and in every Picard iteration of that step,
the system solved is exactly the backward-Euler system
`(M + dt·(S + ReactionMatrix(trial))) · x = M·current + dt·FluxVector`,
with the reaction matrix assembled from the iteration's trial field and the
flux vector from the step's time level; the solver is applied to exactly
that pair, and the convergence error is the maximum absolute componentwise
difference between the solution `x` and the previous trial iterate. -/
theorem picard_solves_backward_euler_system
    (solve : Mat K ndof → Vec K ndof → Vec K ndof)
    (d : SimData K NQ NF ldof ndof) (e : K) (m : ℕ) (theta Tss : K)
    (j : ℕ) (itr : IterRec K ndof)
    (hmem : itr ∈ (picard_iteration solve d (((j : K) + 1) * d.dt) e m
        (state_at solve d e m theta Tss j).uh0
        (state_at solve d e m theta Tss j).uh).trace) :
    itr.A = d.M + d.dt • (d.S + reactionMatrix d itr.trialIn) ∧
    itr.rhs = d.M.mulVec (state_at solve d e m theta Tss j).uh0 +
      d.dt • fluxVector d (((j : K) + 1) * d.dt) ∧
    itr.x = solve itr.A itr.rhs ∧
    itr.prevIter = itr.trialIn ∧
    itr.err = maxAbsDiff itr.x itr.prevIter ∧
    (∀ i, |itr.x i - itr.prevIter i| ≤ itr.err) ∧
    (itr.err = 0 ∨ ∃ i, itr.err = |itr.x i - itr.prevIter i|) := by
  obtain ⟨v, hv⟩ := picard_aux_trace_shape solve d (((j : K) + 1) * d.dt) e
    (state_at solve d e m theta Tss j).uh0 (m - 1)
    (state_at solve d e m theta Tss j).uh0
    (state_at solve d e m theta Tss j).uh 1
    (state_at_uh_eq_uh0 solve d e m theta Tss j).symm itr hmem
  subst hv
  exact ⟨picard_body_A solve d (((j : K) + 1) * d.dt) _ v v,
    picard_body_rhs solve d (((j : K) + 1) * d.dt) _ v v, rfl, rfl, rfl,
    fun i => abs_sub_le_maxAbsDiff _ _ i, maxAbsDiff_attained _ _⟩

/-- Witness for C1 at step `j = 0` of the concrete instance. -/
theorem picard_solves_backward_euler_system_witness :
    cItr ∈ (picard_iteration cSolve0 cD ((((0 : ℕ) : ℚ) + 1) * cD.dt) 0 1
        (state_at cSolve0 cD 0 1 0 1 0).uh0
        (state_at cSolve0 cD 0 1 0 1 0).uh).trace ∧
    (cItr.A = cD.M + cD.dt • (cD.S + reactionMatrix cD cItr.trialIn) ∧
     cItr.rhs = cD.M.mulVec (state_at cSolve0 cD 0 1 0 1 0).uh0 +
       cD.dt • fluxVector cD ((((0 : ℕ) : ℚ) + 1) * cD.dt) ∧
     cItr.x = cSolve0 cItr.A cItr.rhs ∧
     cItr.prevIter = cItr.trialIn ∧
     cItr.err = maxAbsDiff cItr.x cItr.prevIter ∧
     (∀ i, |cItr.x i - cItr.prevIter i| ≤ cItr.err) ∧
     (cItr.err = 0 ∨ ∃ i, cItr.err = |cItr.x i - cItr.prevIter i|)) := by
  have hmem : cItr ∈ (picard_iteration cSolve0 cD
      ((((0 : ℕ) : ℚ) + 1) * cD.dt) 0 1
      (state_at cSolve0 cD 0 1 0 1 0).uh0
      (state_at cSolve0 cD 0 1 0 1 0).uh).trace := by
    rw [state_zero_eq,
      show cSt.uh0 = czero from rfl, show cSt.uh = czero from rfl,
      picard_trace_concrete]
    exact List.mem_singleton.mpr rfl
  exact ⟨hmem,
    picard_solves_backward_euler_system cSolve0 cD 0 1 0 1 0 cItr hmem⟩

/-- C4 counterexample: on the concrete instance with `npicard = 1`,
(a) with `accuracy = 2 > 0` the loop condition `error > accuracy` fails at
entry (`error` starts at `1.0`), so zero linear solves occur — not exactly
one; (b) with `accuracy = 1/2` the single solve already satisfies the
tolerance (its error is `0 ≤ 1/2`), yet the cap-exceeded path still fires,
so the cap path does not fire "if and only if" the tolerance is
unsatisfied. -/
theorem npicard_one_counterexample :
    (picard_iteration cSolve0 cD 1 2 1 czero czero).trace.length = 0 ∧
    (picard_iteration cSolve0 cD 1 ((1 : ℚ)/2) 1 czero czero).capped = true ∧
    ∀ itr ∈ (picard_iteration cSolve0 cD 1 ((1 : ℚ)/2) 1 czero czero).trace,
      itr.err ≤ 1/2 := by
  have hhalf : ((1 : ℚ)/2) < 1 := by norm_num
  refine ⟨?_, ?_, ?_⟩
  · rw [picard_iteration, show (1 : ℕ) - 1 = 0 from rfl,
      picard_aux_of_not_lt cSolve0 cD 1 2 czero czero czero 0 1 (by norm_num)]
    rfl
  · rw [picard_iteration, show (1 : ℕ) - 1 = 0 from rfl,
      picard_aux_zero cSolve0 cD 1 ((1 : ℚ)/2) czero czero czero 1 hhalf]
  · intro itr hmem
    rw [picard_iteration, show (1 : ℕ) - 1 = 0 from rfl,
      picard_aux_zero cSolve0 cD 1 ((1 : ℚ)/2) czero czero czero 1 hhalf]
      at hmem
    simp only [List.mem_singleton] at hmem
    subst hmem
    rw [picard_body_concrete 1]
    norm_num [cItr]

/-- C4 (amended): with `npicard = 1` and an accuracy tolerance strictly
between `0` and `1`, `picard_iteration` performs exactly one linear solve,
and the cap-exceeded path fires unconditionally after that solve,
regardless of whether the tolerance is satisfied by it. -/
theorem npicard_one_single_solve
    (solve : Mat K ndof → Vec K ndof → Vec K ndof)
    (d : SimData K NQ NF ldof ndof) (t e : K) (uh0 uhIn : Vec K ndof)
    (he1 : 0 < e) (he2 : e < 1) :
    (picard_iteration solve d t e 1 uh0 uhIn).trace.length = 1 ∧
    (picard_iteration solve d t e 1 uh0 uhIn).capped = true := by
  have _h1 := he1
  unfold picard_iteration
  rw [show (1 : ℕ) - 1 = 0 from rfl,
    picard_aux_zero solve d t e uh0 uh0 uhIn 1 he2]
  exact ⟨rfl, rfl⟩

/-- Witness for C4 (amended) at `accuracy = 1/2` on the concrete
instance. -/
theorem npicard_one_single_solve_witness :
    0 < (1 : ℚ)/2 ∧ (1 : ℚ)/2 < 1 ∧
    ((picard_iteration cSolve0 cD 1 ((1 : ℚ)/2) 1 czero czero).trace.length = 1 ∧
     (picard_iteration cSolve0 cD 1 ((1 : ℚ)/2) 1 czero czero).capped = true) :=
  ⟨by norm_num, by norm_num,
   npicard_one_single_solve cSolve0 cD 1 ((1 : ℚ)/2) czero czero
     (by norm_num) (by norm_num)⟩

/-- C5: reaching the iteration cap is never an abort — `picard_iteration`
always terminates, and whenever at least one iteration ran (the trace has a
last record `l`) the buffers returned satisfy `next = trial = l.x`, the
last computed solve output, whether the loop stopped by convergence or by
the cap; the time-marching step then commits exactly that `next` value into
`current` (`uh0[:] = uh1` at line 184). -/
theorem nonconvergence_accepts_last_iterate
    (solve : Mat K ndof → Vec K ndof → Vec K ndof)
    (d : SimData K NQ NF ldof ndof) (t e : K) (m : ℕ)
    (uh0 uhIn : Vec K ndof) (i : ℕ) (st : SimState K ndof)
    (l : IterRec K ndof)
    (hl : (picard_iteration solve d t e m uh0 uhIn).trace.getLast? =
      Option.some l) :
    (picard_iteration solve d t e m uh0 uhIn).uh1 = l.x ∧
    (picard_iteration solve d t e m uh0 uhIn).uh = l.x ∧
    (step_once solve d e m i st).uh0 =
      (picard_iteration solve d (((i : K) + 1) * d.dt) e m
        st.uh0 st.uh).uh1 := by
  obtain ⟨h1, h2⟩ := picard_aux_last solve d t e uh0 (m - 1) uh0 uhIn 1 l hl
  exact ⟨h1, h2, rfl⟩

/-- Witness for C5 on the concrete instance (cap hit after one solve). -/
theorem nonconvergence_accepts_last_iterate_witness :
    (picard_iteration cSolve0 cD 1 0 1 czero czero).trace.getLast? =
      Option.some cItr ∧
    ((picard_iteration cSolve0 cD 1 0 1 czero czero).uh1 = cItr.x ∧
     (picard_iteration cSolve0 cD 1 0 1 czero czero).uh = cItr.x ∧
     (step_once cSolve0 cD 0 1 0 cSt).uh0 =
       (picard_iteration cSolve0 cD ((((0 : ℕ) : ℚ) + 1) * cD.dt) 0 1
         cSt.uh0 cSt.uh).uh1) := by
  have hl : (picard_iteration cSolve0 cD 1 0 1 czero czero).trace.getLast? =
      Option.some cItr := by
    rw [picard_trace_concrete 1]
    rfl
  exact ⟨hl,
    nonconvergence_accepts_last_iterate cSolve0 cD 1 0 1 czero czero 0 cSt
      cItr hl⟩

/-- C7 counterexample: at the start of the very first time step the `next`
buffer (`uh1`) is the zero function from `__init__` (line 31) while
`current` (`uh0`) holds `theta / Tss` (line 30), so with `theta = Tss = 1`
the invariant `next = current` fails before the first `picard_iteration`
overwrites `uh1`. -/
theorem buffer_invariant_counterexample :
    (state_at cSolve0 cD 0 1 1 1 0).uh1 ≠
      (state_at cSolve0 cD 0 1 1 1 0).uh0 := by
  intro h
  have h0 := congrFun h 0
  simp [state_at, init_state] at h0

/-- C7 (amended): at the start of every time step `trial = current`; from
the start of the second step onward additionally `next = current` (at the
first step `next` still holds its zero initialization); and at the end of
every step `current` is assigned the `next` value produced by that step's
`picard_iteration`. -/
theorem buffer_invariant (solve : Mat K ndof → Vec K ndof → Vec K ndof)
    (d : SimData K NQ NF ldof ndof) (e : K) (m : ℕ) (theta Tss : K)
    (j : ℕ) :
    (state_at solve d e m theta Tss j).uh =
      (state_at solve d e m theta Tss j).uh0 ∧
    (1 ≤ j → (state_at solve d e m theta Tss j).uh1 =
      (state_at solve d e m theta Tss j).uh0) ∧
    (state_at solve d e m theta Tss (j + 1)).uh0 =
      (picard_iteration solve d (((j : K) + 1) * d.dt) e m
        (state_at solve d e m theta Tss j).uh0
        (state_at solve d e m theta Tss j).uh).uh1 := by
  refine ⟨state_at_uh_eq_uh0 solve d e m theta Tss j, ?_, rfl⟩
  intro hj
  cases j with
  | zero => exact absurd hj (by norm_num)
  | succ j' => rfl

/-- Witness for C7 (amended) at step `j = 1` of the concrete instance. -/
theorem buffer_invariant_witness :
    (1 : ℕ) ≤ 1 ∧
    ((state_at cSolve0 cD 0 1 1 1 1).uh =
       (state_at cSolve0 cD 0 1 1 1 1).uh0 ∧
     (state_at cSolve0 cD 0 1 1 1 1).uh1 =
       (state_at cSolve0 cD 0 1 1 1 1).uh0 ∧
     (state_at cSolve0 cD 0 1 1 1 (1 + 1)).uh0 =
       (picard_iteration cSolve0 cD ((((1 : ℕ) : ℚ) + 1) * cD.dt) 0 1
         (state_at cSolve0 cD 0 1 1 1 1).uh0
         (state_at cSolve0 cD 0 1 1 1 1).uh).uh1) :=
  ⟨by decide,
   (buffer_invariant cSolve0 cD 0 1 1 1 1).1,
   (buffer_invariant cSolve0 cD 0 1 1 1 1).2.1 (by decide),
   (buffer_invariant cSolve0 cD 0 1 1 1 1).2.2⟩

/-- C10: with any accuracy tolerance `≥ 1`, the Picard loop is never
entered (`error` starts at exactly `1.0` and the condition is
`error > accuracy`): no linear solve happens, `next` is set to `current`
unchanged, the cap path does not fire, and the whole time step is a no-op
on the `current` and `trial` temperature buffers. -/
theorem accuracy_ge_one_is_noop
    (solve : Mat K ndof → Vec K ndof → Vec K ndof)
    (d : SimData K NQ NF ldof ndof) (t e : K) (m : ℕ)
    (uh0 uhIn : Vec K ndof) (i : ℕ) (st : SimState K ndof) (h : 1 ≤ e) :
    picard_iteration solve d t e m uh0 uhIn =
      ⟨uh0, uhIn, [], false⟩ ∧
    (step_once solve d e m i st).uh0 = st.uh0 ∧
    (step_once solve d e m i st).uh = st.uh := by
  have h1 : ¬ e < 1 := not_lt.mpr h
  refine ⟨picard_aux_of_not_lt solve d t e uh0 uh0 uhIn (m - 1) 1 h1, ?_, ?_⟩
  · show (picard_aux solve d (((i : K) + 1) * d.dt) e st.uh0 (m - 1)
      st.uh0 st.uh 1).uh1 = st.uh0
    rw [picard_aux_of_not_lt solve d (((i : K) + 1) * d.dt) e st.uh0
      st.uh0 st.uh (m - 1) 1 h1]
  · show (picard_aux solve d (((i : K) + 1) * d.dt) e st.uh0 (m - 1)
      st.uh0 st.uh 1).uh = st.uh
    rw [picard_aux_of_not_lt solve d (((i : K) + 1) * d.dt) e st.uh0
      st.uh0 st.uh (m - 1) 1 h1]

/-- Witness for C10 at `accuracy = 1` on the concrete instance. -/
theorem accuracy_ge_one_is_noop_witness :
    (1 : ℚ) ≤ 1 ∧
    (picard_iteration cSolve0 cD 1 1 3 czero czero =
      ⟨czero, czero, [], false⟩ ∧
     (step_once cSolve0 cD 1 3 0 cSt).uh0 = cSt.uh0 ∧
     (step_once cSolve0 cD 1 3 0 cSt).uh = cSt.uh) :=
  ⟨by norm_num,
   accuracy_ge_one_is_noop cSolve0 cD 1 1 3 czero czero 0 cSt (by norm_num)⟩

/-- C2 (amended): with `npicard = 1`, `accuracy = 0`, `step = 1` and a
two-step timeline, `run` with a queue emits exactly three snapshot
payloads — one before the loop holding the initial field scaled by `Tss`
(before any stepping), then one per time step holding the freshly
committed field — followed by the sentinel exactly once; the first two
snapshots are both labelled with step index `0`. -/
theorem run_two_step_emissions
    (solve : Mat K ndof → Vec K ndof → Vec K ndof)
    (d : SimData K NQ NF ldof ndof) (Tss : K) (st0 : SimState K ndof) :
    run solve d 0 1 1 2 Tss st0 =
      [QItem.snapshot 0 (update_mesh_data Tss st0.uh0),
       QItem.snapshot 0 (update_mesh_data Tss (step_once solve d 0 1 0 st0).uh0),
       QItem.snapshot 1 (update_mesh_data Tss
         (step_once solve d 0 1 1 (step_once solve d 0 1 0 st0)).uh0),
       QItem.sentinel] := rfl

/-- C2 counterexample: on the concrete instance the two-step run puts three
snapshot payloads on the queue, not two (the pre-loop snapshot and the
post-step-0 snapshot are both labelled `0`). -/
theorem run_two_step_counterexample :
    (run cSolve0 cD (0 : ℚ) 1 1 2 1 cInit).countP QItem.isSnapshot = 3 ∧
    (run cSolve0 cD (0 : ℚ) 1 1 2 1 cInit).countP QItem.isSnapshot ≠ 2 := by
  decide

/-- C6: the local solve path commits whatever the backend returns straight
into the trial and next buffers with no validity check — instantiating the
backend with a poison output (standing for the NaN-filled vector scipy's
`spsolve` produces, with only a warning, on a singular system) shows the
poison value silently becoming the step's accepted field. -/
theorem solver_output_committed_unchecked :
    (picard_iteration cSolvePoison cD 1 0 1 czero czero).uh =
      (fun _ => 999) ∧
    (picard_iteration cSolvePoison cD 1 0 1 czero czero).uh1 =
      (fun _ => 999) := by decide

/-- C8: the solve step of `picard_iteration` (lines 126–134) fails on every
non-coordinating participant — with a context whose `myid ≠ 0` the local
variable `x` is never bound and the unconditional `uh[:] = x` raises
`NameError`, modelled as `Option.none` — while the coordinator and the
no-context local path do deliver a solution vector. -/
theorem solve_step_nonroot_fails :
    solve_step cSolve0 (Option.some cCtx1) 1 czero = Option.none ∧
    solve_step cSolve0 (Option.some cCtx0) 1 czero = Option.some czero ∧
    solve_step cSolve0 Option.none 1 czero =
      Option.some (cSolve0 1 czero) :=
  ⟨rfl, rfl, rfl⟩

end Planet
